import Mathlib

/-!
# gearman-exporter: the collector (`gearman_exporter.go`)

A shallow embedding of `NewExporter`, `Exporter.resetMetrics`, `Exporter.scrape`,
`Exporter.collectMetrics` and `Exporter.Collect`, with the library functions they call
(`strings.Split`, `strings.SplitN`, `strconv.ParseFloat`, float64 subtraction, the
Prometheus `GaugeVec`), followed by the properties of the collector.

Conventions.
* A Go string is a `List Char` (`Str`). The separators the code splits on are the
  one-byte strings "\n" and "\t", so splitting a valid UTF-8 text by bytes or by
  characters gives the same pieces.
* A float64 is an `F64`: an exact description of an IEEE 754 binary64 value.
* A run-time panic (`index out of range`) is an explicit result, together with the
  state the exporter is left in.
* What the network returns is an input: `scrape` and `Collect` take the result of
  `e.fetch()` followed by `ioutil.ReadAll`.
-/

namespace Gearman

/-- A Go string. -/
abbrev Str := List Char

/-! ## package `strings` -/

/-- `strings.Count(s, sep)` for a separator of one byte. -/
def Count (s : Str) (sep : Char) : Nat :=
  match s with
  | [] => 0
  | c :: cs => if c = sep then Count cs sep + 1 else Count cs sep

/-- The step of the loop of `genSplit`: `m := Index(s, sep)`, and when `m >= 0` the two
slices `s[:m]` and `s[m+len(sep):]`. -/
def cut (s : Str) (sep : Char) : Option (Str × Str) :=
  match s with
  | [] => none
  | c :: cs =>
    if c = sep then some ([], cs)
    else match cut cs sep with
      | none => none
      | some (a, b) => some (c :: a, b)

/-- The loop of `strings.genSplit`: at most `k` pieces are cut off the front of `s`, and
what is left is the last piece. -/
def genSplitLoop (s : Str) (sep : Char) : Nat → List Str
  | 0 => [s]
  | k + 1 =>
    match cut s sep with
    | none => [s]
    | some (a, rest) => a :: genSplitLoop rest sep k

/-- `strings.SplitN(s, sep, n)` for `n ≥ 0`: `nil` when `n = 0`, else at most `n` pieces,
the last one being the unsplit remainder. -/
def SplitN (s : Str) (sep : Char) (n : Nat) : List Str :=
  if n = 0 then [] else genSplitLoop s sep (n - 1)

/-- `strings.Split(s, sep)`, that is `genSplit(s, sep, 0, -1)`: `n` is set to
`Count(s, sep) + 1`. -/
def Split (s : Str) (sep : Char) : List Str :=
  genSplitLoop s sep (Count s sep)

/-! ## float64 -/

/-- An IEEE 754 binary64 value. `fin neg m k` is the finite number
`(-1)^neg * m * 2^(k - 1074)`; the values the operations below produce are in canonical
form (`m < 2^53`, `k ≤ 2045`, and `2^52 ≤ m` unless `k = 0`), so that equal numbers are
equal terms. Both zeros are present: `fin false 0 0` and `fin true 0 0`. -/
inductive F64 where
  | fin (neg : Bool) (m k : Nat)
  | inf (neg : Bool)
  | nan
  deriving DecidableEq, Repr, Inhabited

namespace F64

/-- The float64 `+0`. -/
def zero : F64 := fin false 0 0

/-- The integer nearest to `p / q`, ties to the even one. -/
def roundHalfEven (p q : Nat) : Nat :=
  let n := p / q
  let r := p % q
  if 2 * r < q then n
  else if q < 2 * r then n + 1
  else if n % 2 = 0 then n else n + 1

/-- The exponent of the binade of `p / q`: the least `k` with `p / (q * 2^k) < 2^53`,
searched upwards from `k` in at most `fuel` steps. -/
def findExp (p q : Nat) : Nat → Nat → Nat
  | 0, k => k
  | fuel + 1, k => if p / (q * 2 ^ k) < 2 ^ 53 then k else findExp p q fuel (k + 1)

/-- Round-to-nearest-even of the nonnegative rational `p / q`, counted in units of
`2^(-1074)`, to a float64 of sign `neg`; overflow gives an infinity. The largest finite
float64 is `(2^53 - 1) * 2^2045` units, so an exponent above `2045` is an overflow and
the search for it stops at `2047`. -/
def round (neg : Bool) (p q : Nat) : F64 :=
  let k := findExp p q 2047 0
  let m := roundHalfEven p (q * 2 ^ k)
  let m1 := if m = 2 ^ 53 then 2 ^ 52 else m
  let k1 := if m = 2 ^ 53 then k + 1 else k
  if 2045 < k1 then inf neg else fin neg m1 k1

/-- The float64 value of a natural number. -/
def ofNat (n : Nat) : F64 := round false (n * 2 ^ 1074) 1

/-- The signed integer `(-1)^neg * m * 2^j`. -/
def scaled (neg : Bool) (m j : Nat) : Int :=
  if neg then -((m * 2 ^ j : Nat) : Int) else ((m * 2 ^ j : Nat) : Int)

/-- The float64 subtraction `x - y` of Go (IEEE 754, round to nearest even). -/
def sub : F64 → F64 → F64
  | nan, _ => nan
  | _, nan => nan
  | inf a, inf b => if a = b then nan else inf a
  | inf a, fin _ _ _ => inf a
  | fin _ _ _, inf b => inf (!b)
  | fin s1 m1 k1, fin s2 m2 k2 =>
    let k := min k1 k2
    let d := scaled s1 m1 (k1 - k) - scaled s2 m2 (k2 - k)
    if d = 0 then fin (s1 && !s2) 0 0
    else round (decide (d < 0)) (d.natAbs * 2 ^ k) 1

/-- The float64 comparison `x < y` of Go (false when an operand is a NaN). -/
def lt : F64 → F64 → Bool
  | nan, _ => false
  | _, nan => false
  | inf a, inf b => a && !b
  | inf a, fin _ _ _ => a
  | fin _ _ _, inf b => !b
  | fin s1 m1 k1, fin s2 m2 k2 =>
    decide (scaled s1 m1 (k1 - min k1 k2) < scaled s2 m2 (k2 - min k1 k2))

end F64

/-! ## package `strconv` -/

/-- The `Err` field of the `*strconv.NumError` that `ParseFloat` returns. -/
inductive NumError where
  | ErrSyntax
  | ErrRange
  deriving DecidableEq, Repr

/-- ASCII lower-casing of a string, as `equalIgnoreCase` compares. -/
def lower (s : Str) : Str := s.map Char.toLower

/-- The function `special` of `strconv`: the strings that denote an infinity or a NaN. -/
def special (s : Str) : Option F64 :=
  let l := lower s
  if l = "inf".data ∨ l = "infinity".data ∨ l = "+inf".data ∨ l = "+infinity".data then
    some (F64.inf false)
  else if l = "-inf".data ∨ l = "-infinity".data then some (F64.inf true)
  else if l = "nan".data then some F64.nan
  else none

/-- The exponent a string of decimal digits denotes, accumulated as `readFloat` does:
`if e < 10000 { e = e*10 + int(s[i]) - '0' }`. -/
def expVal (ds : Str) : Nat :=
  ds.foldl (fun e c => if e < 10000 then e * 10 + (c.toNat - 48) else e) 0

/-- The variable `saw` of `underscoreOK`: the kind of the last character seen, in Go the
bytes '^' (nothing yet), '0' (a digit or the base prefix), '_' and '!' (anything else). -/
inductive Saw where
  | start
  | digit
  | underscore
  | other
  deriving DecidableEq, Repr

/-- A hexadecimal digit that is a letter: `'a' <= lower(c) && lower(c) <= 'f'`. -/
def isHexLetter (c : Char) : Bool := decide ('a' ≤ c.toLower) && decide (c.toLower ≤ 'f')

/-- The loop "Number proper" of `underscoreOK`: an underscore must follow a digit and be
followed by one. -/
def underscoreLoop (hex : Bool) : Saw → Str → Bool
  | saw, [] => decide (saw ≠ Saw.underscore)
  | saw, c :: cs =>
    if c.isDigit || (hex && isHexLetter c) then underscoreLoop hex Saw.digit cs
    else if c = '_' then
      if saw ≠ Saw.digit then false else underscoreLoop hex Saw.underscore cs
    else if saw = Saw.underscore then false
    else underscoreLoop hex Saw.other cs

/-- The function `underscoreOK` of `strconv`: after an optional sign and an optional base
prefix `0b`, `0o` or `0x` (which counts as a digit), the loop above. -/
def underscoreOK (s : Str) : Bool :=
  let s1 := match s with
    | '+' :: t => t
    | '-' :: t => t
    | _ => s
  match s1 with
  | '0' :: b :: t =>
    if b.toLower = 'b' ∨ b.toLower = 'o' ∨ b.toLower = 'x' then
      underscoreLoop (decide (b.toLower = 'x')) Saw.digit t
    else underscoreLoop false Saw.start s1
  | _ => underscoreLoop false Saw.start s1

/-- What the mantissa loop of `readFloat` has read: the digits as a number in the base,
how many of them follow the point, and the flags `sawdot` and `sawdigits`. -/
structure Mantissa where
  digits : Nat
  frac : Nat
  sawdot : Bool
  sawdigits : Bool
  deriving DecidableEq, Repr

/-- The mantissa loop of `readFloat`, in base 16 when `hex` and in base 10 otherwise:
underscores are skipped, one point is accepted, and the loop stops at the first other
character; the result is what was read and what is left of the string. -/
def readMantissa (hex : Bool) : Mantissa → Str → Mantissa × Str
  | m, [] => (m, [])
  | m, c :: cs =>
    if c = '_' then readMantissa hex m cs
    else if c = '.' then
      if m.sawdot then (m, c :: cs) else readMantissa hex { m with sawdot := true } cs
    else if c.isDigit then
      readMantissa hex
        ⟨(if hex then 16 else 10) * m.digits + (c.toNat - 48),
          if m.sawdot then m.frac + 1 else m.frac, m.sawdot, true⟩ cs
    else if hex && isHexLetter c then
      readMantissa hex
        ⟨16 * m.digits + (c.toLower.toNat - 97 + 10),
          if m.sawdot then m.frac + 1 else m.frac, m.sawdot, true⟩ cs
    else (m, c :: cs)

/-- The exponent of `readFloat`, read from what follows the exponent character: an
optional sign, a digit, then digits and underscores up to the end of the string. -/
def readExponent (t : Str) : Option Int :=
  let eneg := match t with
    | '-' :: _ => true
    | _ => false
  let t1 := match t with
    | '+' :: u => u
    | '-' :: u => u
    | _ => t
  match t1 with
  | [] => none
  | c :: _ =>
    if ¬ c.isDigit then none
    else if t1.dropWhile (fun d => d.isDigit || d = '_') ≠ [] then none
    else
      let e := expVal (t1.filter (fun d => d ≠ '_'))
      some (if eneg then -(e : Int) else (e : Int))

/-- A floating-point literal read by `readFloat`: the sign, whether the mantissa is
hexadecimal, its digits as a number, how many of them follow the point, and the exponent
(of 2 for a hexadecimal mantissa, of 10 otherwise). -/
structure Number where
  neg : Bool
  hex : Bool
  digits : Nat
  frac : Nat
  exp : Int
  deriving DecidableEq, Repr

/-- The function `readFloat` of `strconv` on a string it has to read to its end (what
`ParseFloat` requires): an optional sign; the prefix `0x` or `0X` when a character
follows it, for a hexadecimal mantissa; the mantissa, with at least one digit; the
exponent, introduced by `e` or `E` and optional for a decimal mantissa, by `p` or `P` and
required for a hexadecimal one; and the test `underscoreOK` when an underscore was
read. -/
def readFloat (s : Str) : Option Number :=
  let neg := match s with
    | '-' :: _ => true
    | _ => false
  let s1 := match s with
    | '+' :: t => t
    | '-' :: t => t
    | _ => s
  let hex := match s1 with
    | '0' :: x :: _ :: _ => decide (x.toLower = 'x')
    | _ => false
  let m := (readMantissa hex ⟨0, 0, false, false⟩ (if hex then s1.drop 2 else s1)).1
  let rest := (readMantissa hex ⟨0, 0, false, false⟩ (if hex then s1.drop 2 else s1)).2
  if ¬ m.sawdigits then none
  else
    let e : Option Int := match rest with
      | [] => if hex then none else some 0
      | c :: t => if c.toLower = (if hex then 'p' else 'e') then readExponent t else none
    match e with
    | none => none
    | some x =>
      if '_' ∈ s ∧ ¬ underscoreOK s then none else some ⟨neg, hex, m.digits, m.frac, x⟩

/-- The float64 nearest to the number read: `digits * 16^(-frac) * 2^exp` for a
hexadecimal mantissa, `digits * 10^(exp - frac)` for a decimal one. -/
def Number.toF64 (d : Number) : F64 :=
  if d.hex then
    let x := d.exp - 4 * d.frac + 1074
    if 0 ≤ x then F64.round d.neg (d.digits * 2 ^ x.toNat) 1
    else F64.round d.neg d.digits (2 ^ (-x).toNat)
  else
    let e := d.exp - d.frac
    if 0 ≤ e then F64.round d.neg (d.digits * 10 ^ e.toNat * 2 ^ 1074) 1
    else F64.round d.neg (d.digits * 2 ^ 1074) (10 ^ (-e).toNat)

/-- `strconv.ParseFloat(s, 64)`: the value and the error. The strings accepted are the
infinities and NaN of `special` and the decimal and hexadecimal floating-point literals
of `readFloat`, digit-separating underscores included. A string that is not one of
these gives `0` and `ErrSyntax`; a number too large for a float64 gives `±Inf` and
`ErrRange`; otherwise the result is the nearest float64 (IEEE 754 unbiased rounding) and
no error. -/
def ParseFloat (s : Str) : F64 × Option NumError :=
  match special s with
  | some v => (v, none)
  | none =>
    match readFloat s with
    | none => (F64.zero, some NumError.ErrSyntax)
    | some d =>
      match d.toF64 with
      | F64.inf neg => (F64.inf neg, some NumError.ErrRange)
      | v => (v, none)

/-! ## package `net/url` -/

/-- The fields of a `url.URL` that `NewExporter` reads. -/
structure URL where
  Scheme : Str
  Host : Str
  Path : Str
  deriving DecidableEq, Repr

/-- The loop of `getScheme` of `net/url`, at index `i` with `s = rawURL[i:]`. -/
def getSchemeLoop (rawURL : Str) : Nat → Str → Except String (Str × Str)
  | _, [] => .ok ([], rawURL)
  | i, c :: cs =>
    if c.isAlpha then getSchemeLoop rawURL (i + 1) cs
    else if c.isDigit ∨ c = '+' ∨ c = '-' ∨ c = '.' then
      if i = 0 then .ok ([], rawURL) else getSchemeLoop rawURL (i + 1) cs
    else if c = ':' then
      if i = 0 then .error "missing protocol scheme" else .ok (rawURL.take i, cs)
    else .ok ([], rawURL)

/-- The function `getScheme` of `net/url`: the scheme and what follows its colon. -/
def getScheme (rawURL : Str) : Except String (Str × Str) :=
  getSchemeLoop rawURL 0 rawURL

/-- The function `stringContainsCTLByte` of `net/url`: a byte below 0x20 or the byte
0x7f. -/
def stringContainsCTLByte (s : Str) : Bool :=
  s.any (fun c => decide (c.toNat < 32) || decide (c.toNat = 127))

/-- The function `validOptionalPort` of `net/url`: empty, or a colon and decimal
digits. -/
def validOptionalPort (port : Str) : Bool :=
  match port with
  | [] => true
  | c :: t => decide (c = ':') && t.all Char.isDigit

/-- The test of `parseHost` on a host that is not a bracketed IP literal: what starts at
the last colon, when there is one, is a valid port. -/
def validHostPort (host : Str) : Bool :=
  if ':' ∈ host then
    validOptionalPort (':' :: (host.reverse.takeWhile (fun c => c ≠ ':')).reverse)
  else true

/-- `url.Parse`, as far as `Scheme`, `Host` and `Path` go: the fragment is cut off, a
control character is refused, the scheme is split off and lower-cased, the query is cut
off, a rest that does not start with a slash is opaque (with a scheme) or a relative path
whose first segment has no colon, and a rest that starts with two slashes has an
authority up to the next slash, whose port must be valid. Percent escapes, user
information and bracketed IP literals are not part of this model: it is meant for URIs
without the characters "%", "@", "[" and "]". -/
def urlParse (rawURL : Str) : Except String URL :=
  let u := rawURL.takeWhile (fun c => c ≠ '#')
  if stringContainsCTLByte u then .error "net/url: invalid control character in URL"
  else
    match getScheme u with
    | .error err => .error err
    | .ok (scheme, rest0) =>
      let rest := rest0.takeWhile (fun c => c ≠ '?')
      if rest.head? ≠ some '/' then
        if scheme ≠ [] then .ok ⟨lower scheme, [], []⟩
        else if ':' ∈ rest.takeWhile (fun c => c ≠ '/') then
          .error "first path segment in URL cannot contain colon"
        else .ok ⟨[], [], rest⟩
      else if (scheme ≠ [] ∨ rest.take 3 ≠ ['/', '/', '/']) ∧ rest.take 2 = ['/', '/'] then
        if validHostPort ((rest.drop 2).takeWhile (fun c => c ≠ '/')) then
          .ok ⟨lower scheme, (rest.drop 2).takeWhile (fun c => c ≠ '/'),
            (rest.drop 2).dropWhile (fun c => c ≠ '/')⟩
        else .error "invalid port after host"
      else .ok ⟨lower scheme, [], rest⟩

/-! ## Prometheus client -/

/-- A `prometheus.GaugeVec` with the one label `function`: the gauges it holds, by label
value, in the order of their creation. -/
abbrev GaugeVec := List (Str × F64)

namespace GaugeVec

/-- `m.WithLabelValues(label).Set(v)`: the gauge of that label value is created when the
vector does not hold it yet, and is set to `v`. -/
def Set (m : GaugeVec) (label : Str) (v : F64) : GaugeVec :=
  match m with
  | [] => [(label, v)]
  | (l, x) :: rest => if l = label then (l, v) :: rest else (l, x) :: Set rest label v

/-- `m.Reset()`: every gauge is deleted. -/
def Reset (_m : GaugeVec) : GaugeVec := []

/-- The label values the vector holds a gauge for. -/
def labels (m : GaugeVec) : List Str := m.map Prod.fst

/-- The value of the gauge of a label value, when the vector holds one. -/
def get? (m : GaugeVec) (label : Str) : Option F64 :=
  match m with
  | [] => none
  | (l, x) :: rest => if l = label then some x else get? rest label

end GaugeVec

/-- The four gauge families of `functionMetrics`, by metric name. -/
inductive Family where
  | jobs
  | jobs_running
  | jobs_waiting
  | workers
  deriving DecidableEq, Repr

/-- A metric sent on the channel of `Collect`. -/
inductive Sample where
  | up (v : F64)
  | function (family : Family) (label : Str) (v : F64)
  deriving DecidableEq, Repr

/-- `m.Collect(ch)` for a family: one sample for each gauge it holds. -/
def GaugeVec.Collect (family : Family) (m : GaugeVec) : List Sample :=
  m.map (fun lv => Sample.function family lv.1 lv.2)

/-! ## The exporter -/

/-- The closure `fetchUnix(u, schema, timeout)` returns: the variables it captures. It
dials only when it is called. -/
structure Fetch where
  u : Str
  schema : Str
  timeout : Int
  deriving DecidableEq, Repr

/-- The `Exporter` struct; the map `functionMetrics` has the four keys `functionJobs`,
`functionJobsRunning`, `functionJobsWaiting` and `functionWorkers`, here four fields. The
mutex is left out: the operations below are one call at a time. -/
structure Exporter where
  URI : Str
  fetch : Fetch
  up : F64
  functionJobs : GaugeVec
  functionJobsRunning : GaugeVec
  functionJobsWaiting : GaugeVec
  functionWorkers : GaugeVec
  deriving DecidableEq, Repr

/-- The errors `NewExporter` returns. -/
inductive NewExporterError where
  | parse (err : String)
  | unsupportedScheme (scheme : Str)
  deriving DecidableEq, Repr

/-- `NewExporter(uri, timeout)`, with the library function `url.Parse` as a parameter. An
error result stands for the pair of a nil exporter and that error. -/
def NewExporter (parse : Str → Except String URL) (uri : Str) (timeout : Int) :
    Except NewExporterError Exporter :=
  match parse uri with
  | .error err => .error (.parse err)
  | .ok u =>
    if u.Scheme = "tcp".data then
      .ok ⟨uri, ⟨u.Host, "tcp".data, timeout⟩, F64.zero, [], [], [], []⟩
    else if u.Scheme = "unix".data then
      .ok ⟨uri, ⟨u.Path, "unix".data, timeout⟩, F64.zero, [], [], [], []⟩
    else .error (.unsupportedScheme u.Scheme)

namespace Exporter

/-- `e.resetMetrics()`. -/
def resetMetrics (e : Exporter) : Exporter :=
  { e with
    functionJobs := e.functionJobs.Reset
    functionJobsRunning := e.functionJobsRunning.Reset
    functionJobsWaiting := e.functionJobsWaiting.Reset
    functionWorkers := e.functionWorkers.Reset }

/-- The four `WithLabelValues(queueName).Set(...)` calls that end the loop body of
`scrape`, with `waiting := total - running`. -/
def publish (e : Exporter) (queueName : Str) (total running workers : F64) : Exporter :=
  { e with
    functionJobs := e.functionJobs.Set queueName total
    functionJobsRunning := e.functionJobsRunning.Set queueName running
    functionJobsWaiting := e.functionJobsWaiting.Set queueName (F64.sub total running)
    functionWorkers := e.functionWorkers.Set queueName workers }

/-- The loop body of `scrape` after the test for the terminator. `none` is the panic
`index out of range` of `parts[1]`, `parts[2]` or `parts[3]`; it happens before anything
is published. The errors of `ParseFloat` are dropped. -/
def scrapeLine (e : Exporter) (line : Str) : Option Exporter :=
  let parts := SplitN line '\t' 4
  match parts[0]?, parts[1]?, parts[2]?, parts[3]? with
  | some queueName, some p1, some p2, some p3 =>
    some (e.publish queueName (ParseFloat p1).1 (ParseFloat p2).1 (ParseFloat p3).1)
  | _, _, _, _ => none

/-- How a call ends. -/
inductive Outcome where
  | returned
  | panicked
  deriving DecidableEq, Repr

/-- The loop of `scrape` over the lines of the body. -/
def scrapeLines (e : Exporter) : List Str → Exporter × Outcome
  | [] => (e, .returned)
  | line :: rest =>
    if line = ['.'] then (e, .returned)
    else match e.scrapeLine line with
      | none => (e, .panicked)
      | some e1 => scrapeLines e1 rest

/-- `e.scrape()`, given what `e.fetch()` returned: an error, or a stream from which
`ioutil.ReadAll` read `data` (the error of `ReadAll` is not looked at, `data` is what was
read). -/
def scrape (e : Exporter) (fetched : Except String Str) : Exporter × Outcome :=
  match fetched with
  | .error _ => ({ e with up := F64.zero }, .returned)
  | .ok data => scrapeLines { e with up := F64.ofNat 1 } (Split data '\n')

/-- `e.collectMetrics(ch)`: what is sent on the channel. Go ranges over the map in an
unspecified order; the order here is one of them. -/
def collectMetrics (e : Exporter) : List Sample :=
  e.functionJobs.Collect .jobs ++ e.functionJobsRunning.Collect .jobs_running ++
    e.functionJobsWaiting.Collect .jobs_waiting ++ e.functionWorkers.Collect .workers

/-- `e.Collect(ch)`, given what `e.fetch()` returned: the exporter afterwards and the
samples sent on `ch`, or `none` when `scrape` panicked (nothing is sent then). -/
def Collect (e : Exporter) (fetched : Except String Str) : Exporter × Option (List Sample) :=
  match e.resetMetrics.scrape fetched with
  | (e1, .returned) => (e1, some (Sample.up e1.up :: e1.collectMetrics))
  | (e1, .panicked) => (e1, none)

end Exporter

/-- The name `parts[0]` a line is published under. -/
def queueNameOf (line : Str) : Str := ((SplitN line '\t' 4)[0]?).getD []

/-- The lines of a body that precede the first line that is exactly "." (all of them
when there is none). -/
def recordLines (data : Str) : List Str :=
  (Split data '\n').takeWhile (fun line => line ≠ ['.'])

/-- The values of the map `functionMetrics`: the four gauge families. -/
def Exporter.functionMetrics (e : Exporter) : List GaugeVec :=
  [e.functionJobs, e.functionJobsRunning, e.functionJobsWaiting, e.functionWorkers]

/-- The float64 negation `-x`. -/
def F64.neg : F64 → F64
  | F64.fin s m k => F64.fin (!s) m k
  | F64.inf s => F64.inf (!s)
  | F64.nan => F64.nan

/-- The jobs_waiting gauge of a name is the difference of its jobs and
jobs_running gauges. -/
def Exporter.waitingConsistent (e : Exporter) : Prop :=
  ∀ name t r, e.functionJobs.get? name = some t → e.functionJobsRunning.get? name = some r →
    e.functionJobsWaiting.get? name = some (F64.sub t r)

/-- The four gauge families hold gauges for the same label values, created in the same
order. -/
def Exporter.sameLabels (e : Exporter) : Prop :=
  ∀ m ∈ e.functionMetrics, GaugeVec.labels m = e.functionJobs.labels

/-! ## The status response -/

/-- A record of the status response: the four fields of a line, as text. -/
structure Record where
  name : Str
  total : Str
  running : Str
  workers : Str
  deriving DecidableEq, Repr

/-- The record line `name<TAB>TOTAL<TAB>RUNNING<TAB>WORKERS`. -/
def Record.line (r : Record) : Str :=
  r.name ++ '\t' :: (r.total ++ '\t' :: (r.running ++ '\t' :: r.workers))

/-- A response body: the record lines, each ended by a line feed, then the terminator "."
and what follows it. -/
def statusBody (rs : List Record) (rest : Str) : Str :=
  match rs with
  | [] => '.' :: rest
  | r :: rs1 => r.line ++ '\n' :: statusBody rs1 rest

/-- The exporter `NewExporter` returns for the default flags
`--gearman.scrape-uri=tcp://127.0.0.1:4730` and `--gearman.timeout=5s`. -/
def defaultExporter : Exporter :=
  ⟨"tcp://127.0.0.1:4730".data, ⟨"127.0.0.1:4730".data, "tcp".data, 5000000000⟩,
    F64.zero, [], [], [], []⟩

/-! ## Lemmas: splitting -/

theorem Count_append (a b : Str) (sep : Char) :
    Count (a ++ b) sep = Count a sep + Count b sep := by
  induction a with
  | nil => simp [Count]
  | cons c cs ih =>
    by_cases h : c = sep
    · simp [Count, h, ih]; omega
    · simp [Count, h, ih]

theorem Count_eq_zero (a : Str) (sep : Char) (h : sep ∉ a) : Count a sep = 0 := by
  induction a with
  | nil => rfl
  | cons c cs ih =>
    have hc : ¬ c = sep := fun hc => h (by simp [hc])
    have hcs : sep ∉ cs := fun hcs => h (by simp [hcs])
    simp [Count, hc, ih hcs]

theorem cut_append (a b : Str) (sep : Char) (h : sep ∉ a) :
    cut (a ++ sep :: b) sep = some (a, b) := by
  induction a with
  | nil => simp [cut]
  | cons c cs ih =>
    have hc : ¬ c = sep := fun hc => h (by simp [hc])
    have hcs : sep ∉ cs := fun hcs => h (by simp [hcs])
    simp [cut, hc, ih hcs]

theorem cut_none (s : Str) (sep : Char) (h : cut s sep = none) : Count s sep = 0 := by
  induction s with
  | nil => rfl
  | cons c cs ih =>
    by_cases hc : c = sep
    · simp [cut, hc] at h
    · cases hcut : cut cs sep with
      | none => simp [Count, hc, ih hcut]
      | some ab => simp [cut, hc, hcut] at h

theorem cut_some (s : Str) (sep : Char) (a rest : Str) (h : cut s sep = some (a, rest)) :
    Count s sep = Count rest sep + 1 := by
  induction s generalizing a with
  | nil => simp [cut] at h
  | cons c cs ih =>
    by_cases hc : c = sep
    · simp [cut, hc] at h
      simp [Count, hc, h.2]
    · cases hcut : cut cs sep with
      | none => simp [cut, hc, hcut] at h
      | some ab =>
        obtain ⟨a1, b1⟩ := ab
        simp [cut, hc, hcut] at h
        simp [Count, hc, ih a1 (by rw [hcut, h.2])]

theorem genSplitLoop_length (s : Str) (sep : Char) (k : Nat) :
    (genSplitLoop s sep k).length = min k (Count s sep) + 1 := by
  induction k generalizing s with
  | zero => simp [genSplitLoop]
  | succ k ih =>
    cases hcut : cut s sep with
    | none => simp [genSplitLoop, hcut, cut_none s sep hcut]
    | some ab =>
      obtain ⟨a, rest⟩ := ab
      simp only [genSplitLoop, hcut, List.length_cons, ih, cut_some s sep a rest hcut]
      omega

theorem SplitN_four_length (line : Str) :
    (SplitN line '\t' 4).length = min 3 (Count line '\t') + 1 := by
  simp [SplitN, genSplitLoop_length]

theorem Split_append (a b : Str) (sep : Char) (h : sep ∉ a) :
    Split (a ++ sep :: b) sep = a :: Split b sep := by
  have hc : Count (a ++ sep :: b) sep = Count b sep + 1 := by
    rw [Count_append, Count_eq_zero a sep h]
    simp [Count]
  simp [Split, hc, genSplitLoop, cut_append a b sep h]

theorem Split_no_sep (a : Str) (sep : Char) (h : sep ∉ a) : Split a sep = [a] := by
  simp [Split, Count_eq_zero a sep h, genSplitLoop]

/-- A line of four fields, the first three without a tab, is split into these fields. -/
theorem SplitN_record (name total running workers : Str)
    (h0 : '\t' ∉ name) (h1 : '\t' ∉ total) (h2 : '\t' ∉ running) :
    SplitN (name ++ '\t' :: (total ++ '\t' :: (running ++ '\t' :: workers))) '\t' 4
      = [name, total, running, workers] := by
  simp [SplitN, genSplitLoop, cut_append _ _ _ h0, cut_append _ _ _ h1, cut_append _ _ _ h2]

theorem Record.line_ne_terminator (r : Record) : r.line ≠ ['.'] := by
  intro h
  have hm : '\t' ∈ r.line := by simp [Record.line]
  rw [h] at hm
  simp at hm

theorem Split_statusBody (rs : List Record) (rest : Str)
    (hform : ∀ r ∈ rs, '\n' ∉ r.line) (hrest : rest = [] ∨ rest.head? = some '\n') :
    ∃ post, Split (statusBody rs rest) '\n' = rs.map Record.line ++ ['.'] :: post := by
  induction rs with
  | nil =>
    rcases hrest with h | h
    · refine ⟨[], ?_⟩
      subst h
      simp only [statusBody, List.map_nil, List.nil_append]
      exact Split_no_sep ['.'] '\n' (by decide)
    · cases rest with
      | nil => simp at h
      | cons c t =>
        simp at h
        subst h
        exact ⟨Split t '\n', Split_append ['.'] t '\n' (by decide)⟩
  | cons r rs1 ih =>
    obtain ⟨post, hp⟩ := ih (fun x hx => hform x (List.mem_cons_of_mem _ hx))
    refine ⟨post, ?_⟩
    simp only [statusBody, List.map_cons, List.cons_append]
    rw [Split_append r.line _ '\n' (hform r (List.mem_cons_self _ _)), hp]

/-! ## Lemmas: gauge vectors -/

theorem GaugeVec.labels_Set (m : GaugeVec) (label : Str) (v : F64) :
    (m.Set label v).labels = if label ∈ m.labels then m.labels else m.labels ++ [label] := by
  induction m with
  | nil => simp [GaugeVec.Set, GaugeVec.labels]
  | cons lx rest ih =>
    obtain ⟨l, x⟩ := lx
    by_cases h : l = label
    · simp [GaugeVec.Set, GaugeVec.labels, h]
    · have h2 : ¬ label = l := fun e => h e.symm
      simp only [GaugeVec.labels] at ih
      by_cases hm : label ∈ List.map Prod.fst rest
      · simp [GaugeVec.Set, GaugeVec.labels, h, h2, ih, hm]
      · simp [GaugeVec.Set, GaugeVec.labels, h, h2, ih, hm]

theorem GaugeVec.mem_labels_Set (m : GaugeVec) (label : Str) (v : F64) (n : Str) :
    n ∈ (m.Set label v).labels ↔ n ∈ m.labels ∨ n = label := by
  rw [GaugeVec.labels_Set]
  by_cases h : label ∈ m.labels
  · simp only [h, if_true]
    constructor
    · exact Or.inl
    · rintro (h1 | h1)
      · exact h1
      · exact h1 ▸ h
  · simp [h]

theorem GaugeVec.Set_fresh (m : GaugeVec) (label : Str) (v : F64) (h : label ∉ m.labels) :
    m.Set label v = m ++ [(label, v)] := by
  induction m with
  | nil => rfl
  | cons lx rest ih =>
    obtain ⟨l, x⟩ := lx
    have h1 : ¬ l = label := fun e => h (by simp [GaugeVec.labels, e])
    have h2 : label ∉ GaugeVec.labels rest := fun e => h (by
      simp only [GaugeVec.labels, List.map_cons, List.mem_cons]
      exact Or.inr e)
    simp [GaugeVec.Set, h1, ih h2]

theorem GaugeVec.get?_Set_self (m : GaugeVec) (label : Str) (v : F64) :
    (m.Set label v).get? label = some v := by
  induction m with
  | nil => simp [GaugeVec.Set, GaugeVec.get?]
  | cons lx rest ih =>
    obtain ⟨l, x⟩ := lx
    by_cases h : l = label
    · simp [GaugeVec.Set, GaugeVec.get?, h]
    · simp [GaugeVec.Set, GaugeVec.get?, h, ih]

theorem GaugeVec.get?_Set_other (m : GaugeVec) (label : Str) (v : F64) (n : Str)
    (hn : n ≠ label) : (m.Set label v).get? n = m.get? n := by
  induction m with
  | nil =>
    have h : ¬ label = n := fun e => hn e.symm
    simp [GaugeVec.Set, GaugeVec.get?, h]
  | cons lx rest ih =>
    obtain ⟨l, x⟩ := lx
    by_cases h : l = label
    · have h2 : ¬ label = n := fun e => hn e.symm
      simp [GaugeVec.Set, GaugeVec.get?, h, h2]
    · by_cases h3 : l = n
      · subst h3
        simp [GaugeVec.Set, GaugeVec.get?, h]
      · simp [GaugeVec.Set, GaugeVec.get?, h, h3, ih]

/-! ## Lemmas: `strconv.ParseFloat` and float64 -/

theorem ParseFloat_syntax_error (s : Str) (h : (ParseFloat s).2 = some NumError.ErrSyntax) :
    (ParseFloat s).1 = F64.zero := by
  unfold ParseFloat at h ⊢
  cases hs : special s with
  | some v => simp [hs] at h
  | none =>
    cases hd : readFloat s with
    | none => simp
    | some d =>
      simp only [hs, hd] at h
      cases hv : d.toF64 <;> simp [hv] at h

theorem ParseFloat_range_error (s : Str) (h : (ParseFloat s).2 = some NumError.ErrRange) :
    (ParseFloat s).1 = F64.inf false ∨ (ParseFloat s).1 = F64.inf true := by
  unfold ParseFloat at h ⊢
  cases hs : special s with
  | some v => simp [hs] at h
  | none =>
    cases hd : readFloat s with
    | none => simp [hs, hd] at h
    | some d =>
      simp only [hs, hd] at h ⊢
      cases hv : d.toF64 with
      | fin neg m k => simp [hv] at h
      | nan => simp [hv] at h
      | inf neg => cases neg <;> simp

set_option maxRecDepth 100000 in
set_option exponentiation.threshold 100000 in
/-- Values of `ParseFloat`: decimal and hexadecimal literals, underscores, the special
values, and strings it refuses. `fin false 4503599627370496 1020` is 0.25 and
`fin false 1 0` the smallest positive float64. -/
theorem ParseFloat_examples :
    ParseFloat "0x1p-2".data = (F64.fin false 4503599627370496 1020, none) ∧
    ParseFloat "0.25".data = (F64.fin false 4503599627370496 1020, none) ∧
    ParseFloat "0X1P+3".data = (F64.ofNat 8, none) ∧
    ParseFloat "0x1e2p0".data = (F64.ofNat 482, none) ∧
    ParseFloat "0x_1_2.3_4_5p+1_2".data = (F64.ofNat 74565, none) ∧
    ParseFloat "1_23.50_0_0e+1_2".data = (F64.ofNat 123500000000000, none) ∧
    ParseFloat "0x1p-1075".data = (F64.zero, none) ∧
    ParseFloat "0x1.8p-1075".data = (F64.fin false 1 0, none) ∧
    ParseFloat "0x1.fffffffffffff8p1023".data = (F64.inf false, some NumError.ErrRange) ∧
    ParseFloat "-1e999".data = (F64.inf true, some NumError.ErrRange) ∧
    ParseFloat "1e-999".data = (F64.zero, none) ∧
    ParseFloat "+Inf".data = (F64.inf false, none) ∧
    ParseFloat "NaN".data = (F64.nan, none) ∧
    ParseFloat "0x1".data = (F64.zero, some NumError.ErrSyntax) ∧
    ParseFloat "1__0".data = (F64.zero, some NumError.ErrSyntax) ∧
    ParseFloat "_1".data = (F64.zero, some NumError.ErrSyntax) ∧
    ParseFloat "1e".data = (F64.zero, some NumError.ErrSyntax) ∧
    ParseFloat "1e999x".data = (F64.zero, some NumError.ErrSyntax) ∧
    ParseFloat "3\t4".data = (F64.zero, some NumError.ErrSyntax) ∧
    ParseFloat "".data = (F64.zero, some NumError.ErrSyntax) := by
  and_intros <;> decide

theorem F64.findExp_spec (p q fuel k0 : Nat) :
    F64.findExp p q fuel k0 = k0 ∨
      (0 < F64.findExp p q fuel k0 ∧
        2 ^ 53 ≤ p / (q * 2 ^ (F64.findExp p q fuel k0 - 1))) := by
  induction fuel generalizing k0 with
  | zero => exact Or.inl rfl
  | succ f ih =>
    by_cases h : p / (q * 2 ^ k0) < 2 ^ 53
    · left
      rw [F64.findExp, if_pos h]
    · right
      have hr : F64.findExp p q (f + 1) k0 = F64.findExp p q f (k0 + 1) := by
        rw [F64.findExp, if_neg h]
      rw [hr]
      rcases ih (k0 + 1) with h1 | h1
      · rw [h1]
        exact ⟨Nat.succ_pos _, by simpa using Nat.le_of_not_lt h⟩
      · exact h1

theorem F64.le_roundHalfEven (p q : Nat) : p / q ≤ F64.roundHalfEven p q := by
  unfold F64.roundHalfEven
  simp only
  split_ifs <;> omega

/-- Rounding a positive multiple of `2^(-1074)` never gives a zero. -/
theorem F64.round_neg_lt_zero (p : Nat) (hp : 0 < p) :
    F64.lt (F64.round true p 1) F64.zero = true := by
  have hpos : 0 < F64.roundHalfEven p (1 * 2 ^ F64.findExp p 1 2047 0) := by
    refine Nat.lt_of_lt_of_le ?_ (F64.le_roundHalfEven _ _)
    rcases F64.findExp_spec p 1 2047 0 with h | ⟨hk, h⟩
    · rw [h]
      simpa using hp
    · have h2 : F64.findExp p 1 2047 0 = (F64.findExp p 1 2047 0 - 1) + 1 := by omega
      rw [h2, pow_succ, Nat.one_mul, ← Nat.div_div_eq_div_mul]
      rw [Nat.one_mul] at h
      have : 2 ^ 53 / 2 ≤ p / 2 ^ (F64.findExp p 1 2047 0 - 1) / 2 :=
        Nat.div_le_div_right h
      have h52 : 0 < 2 ^ 53 / 2 := by norm_num
      omega
  unfold F64.round
  simp only
  split_ifs with h1 h2 h3
  · rfl
  · simp [F64.lt, F64.zero, F64.scaled]
  · rfl
  · have hm : 0 < F64.roundHalfEven p (1 * 2 ^ F64.findExp p 1 2047 0) *
        2 ^ F64.findExp p 1 2047 0 := Nat.mul_pos hpos (Nat.two_pow_pos _)
    simp only [F64.lt, F64.zero, F64.scaled, Nat.min_zero, Nat.sub_zero, if_true,
      Nat.zero_mul, decide_eq_true_eq]
    simp only [Bool.false_eq_true, if_false]
    omega

/-- When `t < r`, the float64 difference `t - r` is below zero: it is not rounded to, nor
replaced by, a zero. -/
theorem F64.sub_lt_zero_of_lt (t r : F64) (h : F64.lt t r = true) :
    F64.lt (F64.sub t r) F64.zero = true := by
  cases t with
  | nan => simp [F64.lt] at h
  | inf a =>
    cases r with
    | nan => simp [F64.lt] at h
    | inf b =>
      cases a <;> cases b <;> simp [F64.lt] at h
      rfl
    | fin s2 m2 k2 =>
      simp [F64.lt] at h
      subst h
      rfl
  | fin s1 m1 k1 =>
    cases r with
    | nan => simp [F64.lt] at h
    | inf b =>
      simp [F64.lt] at h
      subst h
      rfl
    | fin s2 m2 k2 =>
      simp only [F64.lt, decide_eq_true_eq] at h
      have hd : F64.scaled s1 m1 (k1 - min k1 k2) - F64.scaled s2 m2 (k2 - min k1 k2) < 0 := by
        omega
      have hne : ¬ (F64.scaled s1 m1 (k1 - min k1 k2)
          - F64.scaled s2 m2 (k2 - min k1 k2) = 0) := by omega
      simp only [F64.sub, hne, if_false, hd, decide_True]
      apply F64.round_neg_lt_zero
      apply Nat.mul_pos
      · omega
      · exact Nat.two_pow_pos _

/-! ## Lemmas: the loop of `scrape` -/

theorem scrapeLine_of_parts (e : Exporter) (line name p1 p2 p3 : Str)
    (h : SplitN line '\t' 4 = [name, p1, p2, p3]) :
    e.scrapeLine line
      = some (e.publish name (ParseFloat p1).1 (ParseFloat p2).1 (ParseFloat p3).1) := by
  simp [Exporter.scrapeLine, h]

theorem SplitN_four_of_Count (line : Str) (h : 3 ≤ Count line '\t') :
    ∃ name p1 p2 p3, SplitN line '\t' 4 = [name, p1, p2, p3] := by
  have hl := SplitN_four_length line
  have h4 : (SplitN line '\t' 4).length = 4 := by omega
  rcases hp : SplitN line '\t' 4 with _ | ⟨a, _ | ⟨b, _ | ⟨c, _ | ⟨d, _ | ⟨x, t⟩⟩⟩⟩⟩ <;>
    simp [hp] at h4
  exact ⟨a, b, c, d, rfl⟩

theorem scrapeLine_none (e : Exporter) (line : Str) (h : Count line '\t' < 3) :
    e.scrapeLine line = none := by
  have hl := SplitN_four_length line
  have h4 : (SplitN line '\t' 4).length < 4 := by omega
  rcases hp : SplitN line '\t' 4 with _ | ⟨a, _ | ⟨b, _ | ⟨c, _ | ⟨d, t⟩⟩⟩⟩
  · simp [Exporter.scrapeLine, hp]
  · simp [Exporter.scrapeLine, hp]
  · simp [Exporter.scrapeLine, hp]
  · simp [Exporter.scrapeLine, hp]
  · simp [hp] at h4
    omega

theorem scrapeLine_isSome_iff (e : Exporter) (line : Str) :
    (e.scrapeLine line).isSome = true ↔ 3 ≤ Count line '\t' := by
  constructor
  · intro h
    by_contra hc
    rw [scrapeLine_none e line (by omega)] at h
    simp at h
  · intro h
    obtain ⟨name, p1, p2, p3, hp⟩ := SplitN_four_of_Count line h
    simp [scrapeLine_of_parts e line name p1 p2 p3 hp]

theorem scrapeLine_some (e : Exporter) (line : Str) (e1 : Exporter)
    (h : e.scrapeLine line = some e1) :
    ∃ p1 p2 p3, SplitN line '\t' 4 = [queueNameOf line, p1, p2, p3] ∧
      e1 = e.publish (queueNameOf line) (ParseFloat p1).1 (ParseFloat p2).1
        (ParseFloat p3).1 := by
  have hc : 3 ≤ Count line '\t' := by
    rw [← scrapeLine_isSome_iff e line, h]
    rfl
  obtain ⟨name, p1, p2, p3, hp⟩ := SplitN_four_of_Count line hc
  have hn : queueNameOf line = name := by simp [queueNameOf, hp]
  rw [scrapeLine_of_parts e line name p1 p2 p3 hp] at h
  refine ⟨p1, p2, p3, ?_, ?_⟩
  · rw [hn, hp]
  · rw [hn]
    exact (Option.some.inj h).symm

theorem scrapeLines_terminator (e : Exporter) (pre post : List Str) :
    e.scrapeLines (pre ++ ['.'] :: post) = e.scrapeLines pre := by
  induction pre generalizing e with
  | nil => simp [Exporter.scrapeLines]
  | cons line rest ih =>
    by_cases h : line = ['.']
    · simp [Exporter.scrapeLines, h]
    · cases hl : e.scrapeLine line with
      | none => simp [Exporter.scrapeLines, h, hl]
      | some e1 => simp [Exporter.scrapeLines, h, hl, ih]

/-- The loop of `scrape` on record lines with distinct names: each line adds one gauge
to each family. -/
theorem scrapeLines_records (e : Exporter) (acc rs : List Record) (post : List Str)
    (hform : ∀ r ∈ rs, '\t' ∉ r.name ∧ '\t' ∉ r.total ∧ '\t' ∉ r.running)
    (hdistinct : ((acc ++ rs).map Record.name).Nodup) :
    Exporter.scrapeLines
        { e with
          functionJobs := acc.map (fun r => (r.name, (ParseFloat r.total).1))
          functionJobsRunning := acc.map (fun r => (r.name, (ParseFloat r.running).1))
          functionJobsWaiting := acc.map (fun r =>
            (r.name, F64.sub (ParseFloat r.total).1 (ParseFloat r.running).1))
          functionWorkers := acc.map (fun r => (r.name, (ParseFloat r.workers).1)) }
        (rs.map Record.line ++ ['.'] :: post)
      = ({ e with
          functionJobs := (acc ++ rs).map (fun r => (r.name, (ParseFloat r.total).1))
          functionJobsRunning :=
            (acc ++ rs).map (fun r => (r.name, (ParseFloat r.running).1))
          functionJobsWaiting := (acc ++ rs).map (fun r =>
            (r.name, F64.sub (ParseFloat r.total).1 (ParseFloat r.running).1))
          functionWorkers := (acc ++ rs).map (fun r => (r.name, (ParseFloat r.workers).1)) },
        Exporter.Outcome.returned) := by
  induction rs generalizing acc with
  | nil => simp [Exporter.scrapeLines]
  | cons r rs1 ih =>
    obtain ⟨h0, h1, h2⟩ := hform r (List.mem_cons_self _ _)
    have hfresh : r.name ∉ acc.map Record.name := by
      intro hmem
      rw [List.map_append, List.map_cons] at hdistinct
      have := (List.nodup_append.mp hdistinct).2.2
      exact this hmem (List.mem_cons_self _ _)
    have hl : ∀ (f : Record → F64),
        r.name ∉ GaugeVec.labels (acc.map (fun x => (x.name, f x))) := by
      intro f
      simpa [GaugeVec.labels, List.map_map, Function.comp_def] using hfresh
    have hstep := ih (acc ++ [r]) (fun x hx => hform x (List.mem_cons_of_mem _ hx))
      (by simpa [List.append_assoc] using hdistinct)
    simp only [List.map_cons, List.cons_append, Exporter.scrapeLines,
      Record.line_ne_terminator r, if_false]
    rw [scrapeLine_of_parts _ r.line r.name r.total r.running r.workers
      (SplitN_record r.name r.total r.running r.workers h0 h1 h2)]
    simp only [Exporter.publish, GaugeVec.Set_fresh _ _ _ (hl _)]
    simpa [List.append_assoc] using hstep

theorem scrapeLines_returned_iff (e : Exporter) (ls : List Str) :
    (e.scrapeLines ls).2 = Exporter.Outcome.returned ↔
      ∀ line ∈ ls.takeWhile (fun line => line ≠ ['.']), 3 ≤ Count line '\t' := by
  induction ls generalizing e with
  | nil => simp [Exporter.scrapeLines]
  | cons line rest ih =>
    by_cases ht : line = ['.']
    · simp [Exporter.scrapeLines, ht]
    · cases hl : e.scrapeLine line with
      | none =>
        have hc : ¬ 3 ≤ Count line '\t' := by
          rw [← scrapeLine_isSome_iff e line, hl]
          simp
        simp [Exporter.scrapeLines, ht, hl, List.takeWhile_cons, hc]
      | some e1 =>
        have hc : 3 ≤ Count line '\t' := by
          rw [← scrapeLine_isSome_iff e line, hl]
          rfl
        simp [Exporter.scrapeLines, ht, hl, List.takeWhile_cons, hc, ih e1]

theorem scrapeLines_panicked (e : Exporter) (ls : List Str)
    (h : (e.scrapeLines ls).2 = Exporter.Outcome.panicked) :
    ∃ pre bad post, ls = pre ++ bad :: post ∧
      (∀ l ∈ pre, l ≠ ['.'] ∧ 3 ≤ Count l '\t') ∧ bad ≠ ['.'] ∧ Count bad '\t' < 3 ∧
      e.scrapeLines ls = ((e.scrapeLines pre).1, Exporter.Outcome.panicked) ∧
      (e.scrapeLines pre).2 = Exporter.Outcome.returned := by
  induction ls generalizing e with
  | nil => simp [Exporter.scrapeLines] at h
  | cons line rest ih =>
    by_cases ht : line = ['.']
    · simp [Exporter.scrapeLines, ht] at h
    · cases hl : e.scrapeLine line with
      | none =>
        have hc : ¬ 3 ≤ Count line '\t' := by
          rw [← scrapeLine_isSome_iff e line, hl]
          simp
        refine ⟨[], line, rest, rfl, by simp, ht, by omega, ?_, ?_⟩
        · simp [Exporter.scrapeLines, ht, hl]
        · simp [Exporter.scrapeLines]
      | some e1 =>
        have hc : 3 ≤ Count line '\t' := by
          rw [← scrapeLine_isSome_iff e line, hl]
          rfl
        simp only [Exporter.scrapeLines, ht, hl, if_false] at h
        obtain ⟨pre, bad, post, hls, hpre, hbad, hcount, hstate, hretd⟩ := ih e1 h
        refine ⟨line :: pre, bad, post, by simp [hls], ?_, hbad, hcount, ?_, ?_⟩
        · intro l hmem
          rcases List.mem_cons.mp hmem with h1 | h1
          · exact h1 ▸ ⟨ht, hc⟩
          · exact hpre l h1
        · simpa [Exporter.scrapeLines, ht, hl] using hstate
        · simpa [Exporter.scrapeLines, ht, hl] using hretd

/-! ## Lemmas: invariants of the gauge families -/

theorem publish_waitingConsistent (e : Exporter) (q : Str) (total running workers : F64)
    (h : e.waitingConsistent) : (e.publish q total running workers).waitingConsistent := by
  intro name t r ht hr
  by_cases hq : name = q
  · subst hq
    simp only [Exporter.publish, GaugeVec.get?_Set_self] at ht hr ⊢
    rw [← Option.some.inj ht, ← Option.some.inj hr]
  · simp only [Exporter.publish, GaugeVec.get?_Set_other _ _ _ _ hq] at ht hr ⊢
    exact h name t r ht hr

theorem scrapeLines_waitingConsistent (e : Exporter) (ls : List Str)
    (h : e.waitingConsistent) : (e.scrapeLines ls).1.waitingConsistent := by
  induction ls generalizing e with
  | nil => simpa [Exporter.scrapeLines] using h
  | cons line rest ih =>
    by_cases ht : line = ['.']
    · simpa [Exporter.scrapeLines, ht] using h
    · cases hl : e.scrapeLine line with
      | none => simpa [Exporter.scrapeLines, ht, hl] using h
      | some e1 =>
        obtain ⟨p1, p2, p3, _, he1⟩ := scrapeLine_some e line e1 hl
        simp only [Exporter.scrapeLines, ht, hl, if_false]
        exact ih e1 (he1 ▸ publish_waitingConsistent e _ _ _ _ h)

theorem Collect_waitingConsistent (e : Exporter) (fetched : Except String Str) :
    (e.Collect fetched).1.waitingConsistent := by
  have h0 : ∀ (x : Exporter) (u : F64),
      Exporter.waitingConsistent { x.resetMetrics with up := u } := by
    intro x u name t r ht
    simp [Exporter.resetMetrics, GaugeVec.Reset, GaugeVec.get?] at ht
  have hs : (e.resetMetrics.scrape fetched).1.waitingConsistent := by
    cases fetched with
    | error err => exact h0 e _
    | ok data => exact scrapeLines_waitingConsistent _ _ (h0 e _)
  unfold Exporter.Collect
  rcases hr : e.resetMetrics.scrape fetched with ⟨e1, o⟩
  rw [hr] at hs
  cases o <;> exact hs

theorem publish_sameLabels (e : Exporter) (q : Str) (total running workers : F64)
    (h : e.sameLabels) : (e.publish q total running workers).sameLabels := by
  have h1 := h e.functionJobsRunning (by simp [Exporter.functionMetrics])
  have h2 := h e.functionJobsWaiting (by simp [Exporter.functionMetrics])
  have h3 := h e.functionWorkers (by simp [Exporter.functionMetrics])
  intro m hm
  simp only [Exporter.functionMetrics, Exporter.publish, List.mem_cons, List.mem_singleton,
    List.not_mem_nil, or_false] at hm
  rcases hm with hm | hm | hm | hm <;> subst hm <;>
    simp only [Exporter.publish, GaugeVec.labels_Set, h1, h2, h3]

theorem scrapeLines_sameLabels (e : Exporter) (ls : List Str) (h : e.sameLabels) :
    (e.scrapeLines ls).1.sameLabels := by
  induction ls generalizing e with
  | nil => simpa [Exporter.scrapeLines] using h
  | cons line rest ih =>
    by_cases ht : line = ['.']
    · simpa [Exporter.scrapeLines, ht] using h
    · cases hl : e.scrapeLine line with
      | none => simpa [Exporter.scrapeLines, ht, hl] using h
      | some e1 =>
        obtain ⟨p1, p2, p3, _, he1⟩ := scrapeLine_some e line e1 hl
        simp only [Exporter.scrapeLines, ht, hl, if_false]
        exact ih e1 (he1 ▸ publish_sameLabels e _ _ _ _ h)

theorem scrape_reset_sameLabels (e : Exporter) (fetched : Except String Str) :
    (e.resetMetrics.scrape fetched).1.sameLabels := by
  have h0 : ∀ (x : Exporter) (u : F64),
      Exporter.sameLabels { x.resetMetrics with up := u } := by
    intro x u m hm
    simp only [Exporter.functionMetrics, Exporter.resetMetrics, GaugeVec.Reset, List.mem_cons,
      List.mem_singleton, List.not_mem_nil, or_false, or_self] at hm
    subst hm
    rfl
  cases fetched with
  | error err => exact h0 e _
  | ok data => exact scrapeLines_sameLabels _ _ (h0 e _)

/-- The labels of the jobs family after the loop are those it had and names of lines
that precede the terminator. -/
theorem mem_labels_scrapeLines (e : Exporter) (ls : List Str) (n : Str)
    (h : n ∈ (e.scrapeLines ls).1.functionJobs.labels) :
    n ∈ e.functionJobs.labels ∨
      n ∈ (ls.takeWhile (fun line => line ≠ ['.'])).map queueNameOf := by
  induction ls generalizing e with
  | nil => exact Or.inl (by simpa [Exporter.scrapeLines] using h)
  | cons line rest ih =>
    by_cases ht : line = ['.']
    · exact Or.inl (by simpa [Exporter.scrapeLines, ht] using h)
    · cases hl : e.scrapeLine line with
      | none => exact Or.inl (by simpa [Exporter.scrapeLines, ht, hl] using h)
      | some e1 =>
        obtain ⟨p1, p2, p3, _, he1⟩ := scrapeLine_some e line e1 hl
        simp only [Exporter.scrapeLines, ht, hl, if_false] at h
        rcases ih e1 h with h1 | h1
        · rw [he1] at h1
          simp only [Exporter.publish, GaugeVec.mem_labels_Set] at h1
          rcases h1 with h2 | h2
          · exact Or.inl h2
          · right
            simp [List.takeWhile_cons, ht, h2]
        · right
          simp only [List.takeWhile_cons, ht, ne_eq, not_false_eq_true, decide_True,
            if_true, List.map_cons, List.mem_cons]
          exact Or.inr h1

/-- When the loop returns, every line that precedes the terminator has its name among the
labels of the jobs family, and no label is lost. -/
theorem mem_labels_scrapeLines_returned (e : Exporter) (ls : List Str) (n : Str)
    (hret : (e.scrapeLines ls).2 = Exporter.Outcome.returned)
    (h : n ∈ e.functionJobs.labels ∨
      n ∈ (ls.takeWhile (fun line => line ≠ ['.'])).map queueNameOf) :
    n ∈ (e.scrapeLines ls).1.functionJobs.labels := by
  induction ls generalizing e with
  | nil => simpa [Exporter.scrapeLines] using h
  | cons line rest ih =>
    by_cases ht : line = ['.']
    · simpa [Exporter.scrapeLines, ht] using h
    · cases hl : e.scrapeLine line with
      | none => simp [Exporter.scrapeLines, ht, hl] at hret
      | some e1 =>
        obtain ⟨p1, p2, p3, _, he1⟩ := scrapeLine_some e line e1 hl
        simp only [Exporter.scrapeLines, ht, hl, if_false] at hret ⊢
        apply ih e1 hret
        simp only [List.takeWhile_cons, ht, ne_eq, not_false_eq_true, decide_True,
          if_true, List.map_cons, List.mem_cons] at h
        rw [he1]
        simp only [Exporter.publish, GaugeVec.mem_labels_Set]
        rcases h with h | h | h
        · exact Or.inl (Or.inl h)
        · exact Or.inl (Or.inr h)
        · exact Or.inr h

/-! ## Lemmas: `Collect` -/

theorem Collect_fst (e : Exporter) (fetched : Except String Str) :
    (e.Collect fetched).1 = (e.resetMetrics.scrape fetched).1 := by
  unfold Exporter.Collect
  rcases e.resetMetrics.scrape fetched with ⟨e1, o⟩
  cases o <;> rfl

theorem Collect_snd (e : Exporter) (fetched : Except String Str) (samples : List Sample)
    (h : (e.Collect fetched).2 = some samples) :
    (e.resetMetrics.scrape fetched).2 = Exporter.Outcome.returned ∧
      samples = Sample.up (e.Collect fetched).1.up :: (e.Collect fetched).1.collectMetrics := by
  unfold Exporter.Collect at h ⊢
  revert h
  rcases e.resetMetrics.scrape fetched with ⟨e1, o⟩
  cases o with
  | returned =>
    intro h
    exact ⟨rfl, (Option.some.inj h).symm⟩
  | panicked =>
    intro h
    simp at h

theorem mem_collectMetrics (e : Exporter) (f : Family) (n : Str) (v : F64)
    (h : Sample.function f n v ∈ e.collectMetrics) :
    ∃ m ∈ e.functionMetrics, n ∈ GaugeVec.labels m := by
  simp only [Exporter.collectMetrics, GaugeVec.Collect, List.mem_append, List.mem_map] at h
  rcases h with ((⟨x, hx, hs⟩ | ⟨x, hx, hs⟩) | ⟨x, hx, hs⟩) | ⟨x, hx, hs⟩
  · exact ⟨e.functionJobs, by simp [Exporter.functionMetrics],
      List.mem_map.mpr ⟨x, hx, (Sample.function.inj hs).2.1⟩⟩
  · exact ⟨e.functionJobsRunning, by simp [Exporter.functionMetrics],
      List.mem_map.mpr ⟨x, hx, (Sample.function.inj hs).2.1⟩⟩
  · exact ⟨e.functionJobsWaiting, by simp [Exporter.functionMetrics],
      List.mem_map.mpr ⟨x, hx, (Sample.function.inj hs).2.1⟩⟩
  · exact ⟨e.functionWorkers, by simp [Exporter.functionMetrics],
      List.mem_map.mpr ⟨x, hx, (Sample.function.inj hs).2.1⟩⟩

/-- The labels a `Collect` with a successful fetch leaves in a family are names of lines
that precede the terminator. -/
theorem Collect_labels_sub (x : Exporter) (data : Str) (m : GaugeVec)
    (hm : m ∈ (x.Collect (.ok data)).1.functionMetrics) (n : Str)
    (hn : n ∈ GaugeVec.labels m) : n ∈ (recordLines data).map queueNameOf := by
  rw [Collect_fst] at hm
  rw [scrape_reset_sameLabels x (.ok data) m hm] at hn
  rcases mem_labels_scrapeLines _ _ n hn with h | h
  · simp [Exporter.resetMetrics, GaugeVec.Reset, GaugeVec.labels] at h
  · exact h

/-- When that `Collect` returns, every such name is a label of every family. -/
theorem Collect_labels_sup (x : Exporter) (data : Str) (samples : List Sample)
    (hret : (x.Collect (.ok data)).2 = some samples) (m : GaugeVec)
    (hm : m ∈ (x.Collect (.ok data)).1.functionMetrics) (n : Str)
    (hn : n ∈ (recordLines data).map queueNameOf) : n ∈ GaugeVec.labels m := by
  have hr := (Collect_snd x (.ok data) samples hret).1
  rw [Collect_fst] at hm
  rw [scrape_reset_sameLabels x (.ok data) m hm]
  exact mem_labels_scrapeLines_returned _ _ n hr (Or.inr hn)

/-- What the code keeps of the replacement of labels. After two `Collect` calls in a row
whose fetches succeed, a label held by any of the four families is the name of a line
that precedes the terminator in the second body, so a name that only the first body has
is in no family; and for a second call that returns, the labels of each of the four
families are exactly these names and every function-labeled sample carries one. -/
theorem collect_replaces_labels (e : Exporter) (body1 body2 : Str) :
    (∀ m ∈ ((e.Collect (.ok body1)).1.Collect (.ok body2)).1.functionMetrics,
      ∀ n ∈ GaugeVec.labels m, n ∈ (recordLines body2).map queueNameOf) ∧
    (∀ samples, ((e.Collect (.ok body1)).1.Collect (.ok body2)).2 = some samples →
      (∀ m ∈ ((e.Collect (.ok body1)).1.Collect (.ok body2)).1.functionMetrics,
        ∀ n, n ∈ GaugeVec.labels m ↔ n ∈ (recordLines body2).map queueNameOf) ∧
      (∀ f n v, Sample.function f n v ∈ samples →
        n ∈ (recordLines body2).map queueNameOf)) := by
  refine ⟨fun m hm n hn => Collect_labels_sub _ body2 m hm n hn, ?_⟩
  intro samples hret
  refine ⟨fun m hm n => ⟨Collect_labels_sub _ body2 m hm n,
    Collect_labels_sup _ body2 samples hret m hm n⟩, ?_⟩
  intro f n v hs
  rw [(Collect_snd _ _ samples hret).2] at hs
  rcases List.mem_cons.mp hs with h | h
  · cases h
  · obtain ⟨m, hm, hn⟩ := mem_collectMetrics _ f n v h
    exact Collect_labels_sub _ body2 m hm n hn

set_option maxRecDepth 100000 in
set_option exponentiation.threshold 100000 in
/-- The replacement of labels at the bodies "a\t1\t1\t1\n.\n" and then
"b\t2\t1\t1\n.\n". -/
theorem collect_replaces_labels_example :
    ((defaultExporter.Collect (.ok "a\t1\t1\t1\n.\n".data)).1.Collect
        (.ok "b\t2\t1\t1\n.\n".data)).2
      = some [Sample.up (F64.ofNat 1),
          Sample.function .jobs "b".data (F64.ofNat 2),
          Sample.function .jobs_running "b".data (F64.ofNat 1),
          Sample.function .jobs_waiting "b".data (F64.ofNat 1),
          Sample.function .workers "b".data (F64.ofNat 1)] ∧
    (recordLines "b\t2\t1\t1\n.\n".data).map queueNameOf = ["b".data] ∧
    ((∀ m ∈ ((defaultExporter.Collect (.ok "a\t1\t1\t1\n.\n".data)).1.Collect
          (.ok "b\t2\t1\t1\n.\n".data)).1.functionMetrics,
        ∀ n, n ∈ GaugeVec.labels m ↔
          n ∈ (recordLines "b\t2\t1\t1\n.\n".data).map queueNameOf) ∧
      (∀ f n v, Sample.function f n v ∈ [Sample.up (F64.ofNat 1),
          Sample.function .jobs "b".data (F64.ofNat 2),
          Sample.function .jobs_running "b".data (F64.ofNat 1),
          Sample.function .jobs_waiting "b".data (F64.ofNat 1),
          Sample.function .workers "b".data (F64.ofNat 1)] →
        n ∈ (recordLines "b\t2\t1\t1\n.\n".data).map queueNameOf)) :=
  ⟨by decide, by decide,
    (collect_replaces_labels defaultExporter "a\t1\t1\t1\n.\n".data
      "b\t2\t1\t1\n.\n".data).2 _ (by decide)⟩

/-! ## The claims -/

/-! ### C1: a well-formed response -/

/-- C1. For a body made of record lines `name<TAB>TOTAL<TAB>RUNNING<TAB>WORKERS` with
pairwise distinct names, followed by a line that is exactly ".", a `Collect` whose fetch
succeeds returns normally and holds, in each family, exactly one gauge per record, under
the record's name: jobs is the number TOTAL parses to, jobs_running the number RUNNING
parses to, jobs_waiting their difference and workers the number WORKERS parses to; the
samples sent are the up sample with value 1 and these gauges, and no other. -/
theorem collect_records (e : Exporter) (rs : List Record) (rest : Str)
    (hform : ∀ r ∈ rs, '\t' ∉ r.name ∧ '\t' ∉ r.total ∧ '\t' ∉ r.running ∧ '\n' ∉ r.line)
    (hdistinct : (rs.map Record.name).Nodup)
    (hrest : rest = [] ∨ rest.head? = some '\n') :
    e.Collect (.ok (statusBody rs rest))
      = ({ e with
          up := F64.ofNat 1
          functionJobs := rs.map (fun r => (r.name, (ParseFloat r.total).1))
          functionJobsRunning := rs.map (fun r => (r.name, (ParseFloat r.running).1))
          functionJobsWaiting := rs.map (fun r =>
            (r.name, F64.sub (ParseFloat r.total).1 (ParseFloat r.running).1))
          functionWorkers := rs.map (fun r => (r.name, (ParseFloat r.workers).1)) },
        some (Sample.up (F64.ofNat 1) ::
          (rs.map (fun r => Sample.function .jobs r.name (ParseFloat r.total).1) ++
            rs.map (fun r => Sample.function .jobs_running r.name (ParseFloat r.running).1) ++
            rs.map (fun r => Sample.function .jobs_waiting r.name
              (F64.sub (ParseFloat r.total).1 (ParseFloat r.running).1)) ++
            rs.map (fun r => Sample.function .workers r.name (ParseFloat r.workers).1)))) := by
  obtain ⟨post, hp⟩ := Split_statusBody rs rest (fun r hr => (hform r hr).2.2.2) hrest
  have hloop := scrapeLines_records { e with up := F64.ofNat 1 } [] rs post
    (fun r hr => ⟨(hform r hr).1, (hform r hr).2.1, (hform r hr).2.2.1⟩)
    (by simpa using hdistinct)
  simp only [List.map_nil, List.nil_append] at hloop
  simp only [Exporter.Collect, Exporter.scrape, Exporter.resetMetrics, GaugeVec.Reset, hp]
  rw [hloop]
  simp [Exporter.collectMetrics, GaugeVec.Collect, List.map_map, Function.comp_def]

set_option maxRecDepth 100000 in
set_option exponentiation.threshold 100000 in
/-- C1, at the bodies "fn1\t5\t2\t3\n.\n" and "fn1\t5\t2\t3\nfn2\t0\t0\t1\n.\n". -/
theorem collect_records_witness :
    defaultExporter.Collect (.ok "fn1\t5\t2\t3\n.\n".data)
      = ({ defaultExporter with
          up := F64.ofNat 1
          functionJobs := [("fn1".data, F64.ofNat 5)]
          functionJobsRunning := [("fn1".data, F64.ofNat 2)]
          functionJobsWaiting := [("fn1".data, F64.ofNat 3)]
          functionWorkers := [("fn1".data, F64.ofNat 3)] },
        some [Sample.up (F64.ofNat 1),
          Sample.function .jobs "fn1".data (F64.ofNat 5),
          Sample.function .jobs_running "fn1".data (F64.ofNat 2),
          Sample.function .jobs_waiting "fn1".data (F64.ofNat 3),
          Sample.function .workers "fn1".data (F64.ofNat 3)]) ∧
    defaultExporter.Collect (.ok "fn1\t5\t2\t3\nfn2\t0\t0\t1\n.\n".data)
      = ({ defaultExporter with
          up := F64.ofNat 1
          functionJobs := [("fn1".data, F64.ofNat 5), ("fn2".data, F64.ofNat 0)]
          functionJobsRunning := [("fn1".data, F64.ofNat 2), ("fn2".data, F64.ofNat 0)]
          functionJobsWaiting := [("fn1".data, F64.ofNat 3), ("fn2".data, F64.ofNat 0)]
          functionWorkers := [("fn1".data, F64.ofNat 3), ("fn2".data, F64.ofNat 1)] },
        some [Sample.up (F64.ofNat 1),
          Sample.function .jobs "fn1".data (F64.ofNat 5),
          Sample.function .jobs "fn2".data (F64.ofNat 0),
          Sample.function .jobs_running "fn1".data (F64.ofNat 2),
          Sample.function .jobs_running "fn2".data (F64.ofNat 0),
          Sample.function .jobs_waiting "fn1".data (F64.ofNat 3),
          Sample.function .jobs_waiting "fn2".data (F64.ofNat 0),
          Sample.function .workers "fn1".data (F64.ofNat 3),
          Sample.function .workers "fn2".data (F64.ofNat 1)]) :=
  ⟨(collect_records defaultExporter [⟨"fn1".data, "5".data, "2".data, "3".data⟩] "\n".data
      (by decide) (by decide) (by decide)).trans (by decide),
    (collect_records defaultExporter
      [⟨"fn1".data, "5".data, "2".data, "3".data⟩, ⟨"fn2".data, "0".data, "0".data, "1".data⟩]
      "\n".data (by decide) (by decide) (by decide)).trans (by decide)⟩

/-! ### C2: jobs_waiting -/

/-- C2. A line that `scrape` processes is published with a jobs_waiting value that is the
float64 difference `total - running` of the jobs and jobs_running values published under
the same name; whenever `total < running` that difference is below zero (it is not
clamped to 0); and after every `Collect` the jobs_waiting gauge of each name is the
difference of its jobs and jobs_running gauges. -/
theorem waiting_is_total_minus_running (e : Exporter) (line name p1 p2 p3 : Str)
    (h : SplitN line '\t' 4 = [name, p1, p2, p3]) :
    (∃ e1, e.scrapeLine line = some e1 ∧
      e1.functionJobs.get? name = some (ParseFloat p1).1 ∧
      e1.functionJobsRunning.get? name = some (ParseFloat p2).1 ∧
      e1.functionJobsWaiting.get? name
        = some (F64.sub (ParseFloat p1).1 (ParseFloat p2).1)) ∧
    (∀ t r, F64.lt t r = true → F64.lt (F64.sub t r) F64.zero = true) ∧
    (∀ fetched n t r, (e.Collect fetched).1.functionJobs.get? n = some t →
      (e.Collect fetched).1.functionJobsRunning.get? n = some r →
      (e.Collect fetched).1.functionJobsWaiting.get? n = some (F64.sub t r)) := by
  refine ⟨⟨_, scrapeLine_of_parts e line name p1 p2 p3 h, ?_, ?_, ?_⟩,
    F64.sub_lt_zero_of_lt, fun fetched => Collect_waitingConsistent e fetched⟩
  · simp [Exporter.publish, GaugeVec.get?_Set_self]
  · simp [Exporter.publish, GaugeVec.get?_Set_self]
  · simp [Exporter.publish, GaugeVec.get?_Set_self]

set_option maxRecDepth 100000 in
set_option exponentiation.threshold 100000 in
/-- C2, at the line "fn\t2\t5\t1": running exceeds total and jobs_waiting is -3. -/
theorem waiting_is_total_minus_running_witness :
    SplitN "fn\t2\t5\t1".data '\t' 4 = ["fn".data, "2".data, "5".data, "1".data] ∧
    F64.lt (ParseFloat "2".data).1 (ParseFloat "5".data).1 = true ∧
    F64.sub (ParseFloat "2".data).1 (ParseFloat "5".data).1 = F64.neg (F64.ofNat 3) ∧
    (defaultExporter.Collect (.ok "fn\t2\t5\t1\n.\n".data)).1.functionJobsWaiting.get?
      "fn".data = some (F64.neg (F64.ofNat 3)) ∧
    ∃ e1, defaultExporter.scrapeLine "fn\t2\t5\t1".data = some e1 ∧
      e1.functionJobs.get? "fn".data = some (ParseFloat "2".data).1 ∧
      e1.functionJobsRunning.get? "fn".data = some (ParseFloat "5".data).1 ∧
      e1.functionJobsWaiting.get? "fn".data
        = some (F64.sub (ParseFloat "2".data).1 (ParseFloat "5".data).1) :=
  ⟨by decide, by decide, by decide, by decide,
    (waiting_is_total_minus_running defaultExporter "fn\t2\t5\t1".data "fn".data "2".data
      "5".data "1".data (by decide)).1⟩

/-! ### C3: labels of consecutive collects -/

set_option maxRecDepth 100000 in
set_option exponentiation.threshold 100000 in
/-- C3 fails on the code. After a first `Collect` on "a\t1\t1\t1\n.\n" the fetch of the
second succeeds with the body "b\t1\t1\t1\nc\nd\t1\t1\t1\n.\n"; the lines before its
terminator have the names `b`, `c` and `d`, but `scrape` panics at the line `c`: the four
families hold the label `b` alone, not the three names, and no sample is sent. -/
theorem collect_labels_short_line :
    (recordLines "b\t1\t1\t1\nc\nd\t1\t1\t1\n.\n".data).map queueNameOf
      = ["b".data, "c".data, "d".data] ∧
    (((defaultExporter.Collect (.ok "a\t1\t1\t1\n.\n".data)).1.Collect
        (.ok "b\t1\t1\t1\nc\nd\t1\t1\t1\n.\n".data)).1.functionMetrics).map
          GaugeVec.labels
      = [["b".data], ["b".data], ["b".data], ["b".data]] ∧
    ((defaultExporter.Collect (.ok "a\t1\t1\t1\n.\n".data)).1.Collect
        (.ok "b\t1\t1\t1\nc\nd\t1\t1\t1\n.\n".data)).2 = none ∧
    ¬ (∀ n, n ∈ GaugeVec.labels ((defaultExporter.Collect
          (.ok "a\t1\t1\t1\n.\n".data)).1.Collect
            (.ok "b\t1\t1\t1\nc\nd\t1\t1\t1\n.\n".data)).1.functionJobs ↔
        n ∈ (recordLines "b\t1\t1\t1\nc\nd\t1\t1\t1\n.\n".data).map queueNameOf) :=
  ⟨by decide, by decide, by decide,
    fun h => absurd ((h "d".data).mpr (by decide)) (by decide)⟩

/-! ### C4: a failed fetch -/

/-- C4. When `fetch` returns an error, `Collect` leaves the up gauge at 0 and the four
gauge families empty, whatever they held before, and sends the up sample with value 0 and
nothing else. -/
theorem collect_fetch_error (e : Exporter) (err : String) :
    (e.Collect (.error err)).1.up = F64.zero ∧
    (e.Collect (.error err)).1.functionJobs = [] ∧
    (e.Collect (.error err)).1.functionJobsRunning = [] ∧
    (e.Collect (.error err)).1.functionJobsWaiting = [] ∧
    (e.Collect (.error err)).1.functionWorkers = [] ∧
    (e.Collect (.error err)).2 = some [Sample.up F64.zero] := by
  simp [Exporter.Collect, Exporter.scrape, Exporter.resetMetrics, Exporter.collectMetrics,
    GaugeVec.Reset, GaugeVec.Collect]

/-! ### C5: the terminator -/

/-- C5. Two bodies whose lines agree up to and including a line that is exactly "." are
scraped alike: `scrape` and `Collect` give the same exporter, outcome and samples for
both, namely what the loop gives on the lines before that terminator; no line after it
is read. -/
theorem scrape_ignores_after_terminator (e : Exporter) (data1 data2 : Str)
    (pre post1 post2 : List Str)
    (h1 : Split data1 '\n' = pre ++ ['.'] :: post1)
    (h2 : Split data2 '\n' = pre ++ ['.'] :: post2) :
    e.scrape (.ok data1) = e.scrape (.ok data2) ∧
    e.Collect (.ok data1) = e.Collect (.ok data2) ∧
    e.scrape (.ok data1) = Exporter.scrapeLines { e with up := F64.ofNat 1 } pre := by
  have hs : ∀ x : Exporter, x.scrape (.ok data1) = x.scrape (.ok data2) := by
    intro x
    simp [Exporter.scrape, h1, h2, scrapeLines_terminator]
  refine ⟨hs e, ?_, ?_⟩
  · simp [Exporter.Collect, hs]
  · simp [Exporter.scrape, h1, scrapeLines_terminator]

/-- C5, at the bodies "a\t1\t1\t1\n.\nb\t2\t2\t2\n.\n" and "a\t1\t1\t1\n.\nzzz". -/
theorem scrape_ignores_after_terminator_witness :
    Split "a\t1\t1\t1\n.\nb\t2\t2\t2\n.\n".data '\n'
      = ["a\t1\t1\t1".data] ++ ['.'] :: ["b\t2\t2\t2".data, ".".data, []] ∧
    Split "a\t1\t1\t1\n.\nzzz".data '\n' = ["a\t1\t1\t1".data] ++ ['.'] :: ["zzz".data] ∧
    (defaultExporter.scrape (.ok "a\t1\t1\t1\n.\nb\t2\t2\t2\n.\n".data)
        = defaultExporter.scrape (.ok "a\t1\t1\t1\n.\nzzz".data) ∧
      defaultExporter.Collect (.ok "a\t1\t1\t1\n.\nb\t2\t2\t2\n.\n".data)
        = defaultExporter.Collect (.ok "a\t1\t1\t1\n.\nzzz".data) ∧
      defaultExporter.scrape (.ok "a\t1\t1\t1\n.\nb\t2\t2\t2\n.\n".data)
        = Exporter.scrapeLines { defaultExporter with up := F64.ofNat 1 }
            ["a\t1\t1\t1".data]) :=
  ⟨by decide, by decide,
    scrape_ignores_after_terminator defaultExporter _ _ ["a\t1\t1\t1".data]
      ["b\t2\t2\t2".data, ".".data, []] ["zzz".data] (by decide) (by decide)⟩

/-! ### C6: a line of fewer than four fields -/

set_option maxRecDepth 100000 in
set_option exponentiation.threshold 100000 in
/-- C6 fails on the code. A line of one, two or three fields before the terminator, the
empty line included, makes `scrape` panic on `parts[1]`, `parts[2]` or `parts[3]`:
`Collect` does not return normally, sends no sample and publishes nothing for that line
nor for the lines after it. -/
theorem collect_short_line_panics :
    defaultExporter.Collect (.ok "fn1\t5\n.\n".data)
      = ({ defaultExporter with up := F64.ofNat 1 }, none) ∧
    defaultExporter.Collect (.ok "fn1\t5\t2\nfn2\t1\t1\t1\n.\n".data)
      = ({ defaultExporter with up := F64.ofNat 1 }, none) ∧
    defaultExporter.Collect (.ok "fn1\n.\n".data)
      = ({ defaultExporter with up := F64.ofNat 1 }, none) ∧
    defaultExporter.Collect (.ok "\n.\n".data)
      = ({ defaultExporter with up := F64.ofNat 1 }, none) := by
  decide

/-! ### C7: fields that do not parse -/

/-- C7, as the code has it. A line of four fields is published under its name with the
values `strconv.ParseFloat` returns for the three numeric fields, the errors being
dropped, and the loop goes on with the lines that follow. For a field that is not a
number (`ErrSyntax`) that value is 0; for a number out of the float64 range (`ErrRange`)
it is `+Inf` or `-Inf`. -/
theorem scrape_publishes_ParseFloat_value (e : Exporter) (line name p1 p2 p3 : Str)
    (rest : List Str) (h : SplitN line '\t' 4 = [name, p1, p2, p3]) :
    e.scrapeLines (line :: rest)
      = (e.publish name (ParseFloat p1).1 (ParseFloat p2).1 (ParseFloat p3).1).scrapeLines
          rest ∧
    (e.publish name (ParseFloat p1).1 (ParseFloat p2).1 (ParseFloat p3).1).functionJobs.get?
        name = some (ParseFloat p1).1 ∧
    (e.publish name (ParseFloat p1).1 (ParseFloat p2).1
        (ParseFloat p3).1).functionJobsRunning.get? name = some (ParseFloat p2).1 ∧
    (e.publish name (ParseFloat p1).1 (ParseFloat p2).1 (ParseFloat p3).1).functionWorkers.get?
        name = some (ParseFloat p3).1 ∧
    (∀ s, (ParseFloat s).2 = some NumError.ErrSyntax → (ParseFloat s).1 = F64.zero) ∧
    (∀ s, (ParseFloat s).2 = some NumError.ErrRange →
      (ParseFloat s).1 = F64.inf false ∨ (ParseFloat s).1 = F64.inf true) := by
  have hne : line ≠ ['.'] := by
    intro hl
    rw [hl] at h
    have h1 : (SplitN ['.'] '\t' 4).length = 1 := by decide
    rw [h] at h1
    simp at h1
  refine ⟨?_, ?_, ?_, ?_, ParseFloat_syntax_error, ParseFloat_range_error⟩
  · simp [Exporter.scrapeLines, hne, scrapeLine_of_parts e line name p1 p2 p3 h]
  · simp [Exporter.publish, GaugeVec.get?_Set_self]
  · simp [Exporter.publish, GaugeVec.get?_Set_self]
  · simp [Exporter.publish, GaugeVec.get?_Set_self]

set_option maxRecDepth 100000 in
set_option exponentiation.threshold 100000 in
/-- C7, at the line "fn\tabc\t1e999\t7" followed by the terminator; and the values of
the hexadecimal field "0x1p-2", which is 0.25 = 4503599627370496 * 2^(1020 - 1074), and of the field
"1_000". -/
theorem scrape_publishes_ParseFloat_value_witness :
    SplitN "fn\tabc\t1e999\t7".data '\t' 4
      = ["fn".data, "abc".data, "1e999".data, "7".data] ∧
    ParseFloat "abc".data = (F64.zero, some NumError.ErrSyntax) ∧
    ParseFloat "1e999".data = (F64.inf false, some NumError.ErrRange) ∧
    ParseFloat "7".data = (F64.ofNat 7, none) ∧
    ParseFloat "0x1p-2".data = (F64.fin false 4503599627370496 1020, none) ∧
    ParseFloat "1_000".data = (F64.ofNat 1000, none) ∧
    (defaultExporter.publish "fn".data (ParseFloat "abc".data).1 (ParseFloat "1e999".data).1
        (ParseFloat "7".data).1).functionJobsRunning.get? "fn".data
      = some (ParseFloat "1e999".data).1 :=
  ⟨by decide, by decide, by decide, by decide, by decide, by decide,
    (scrape_publishes_ParseFloat_value defaultExporter "fn\tabc\t1e999\t7".data "fn".data
      "abc".data "1e999".data "7".data [".".data] (by decide)).2.2.1⟩

set_option maxRecDepth 100000 in
set_option exponentiation.threshold 100000 in
/-- C7 as stated fails: the field "1e999" of the body "fn\t1e999\t0\t0\n.\n" does not
parse (`ParseFloat` reports `ErrRange`), and the jobs gauge of `fn` is `+Inf`, not 0. -/
theorem scrape_range_error_publishes_inf :
    (ParseFloat "1e999".data).2 = some NumError.ErrRange ∧
    (defaultExporter.Collect (.ok "fn\t1e999\t0\t0\n.\n".data)).1.functionJobs.get? "fn".data
      = some (F64.inf false) ∧
    F64.inf false ≠ F64.zero := by
  decide

/-! ### C8: `NewExporter` -/

/-- C8. Once `url.Parse` has returned a URL, `NewExporter` decides on its scheme alone,
without any use of the network: for "tcp" it returns an exporter that will dial the host,
for "unix" one that will dial the path, both with an up gauge of 0 and empty families;
for every other scheme, the empty one included, it returns the error
`unsupported scheme`. -/
theorem NewExporter_decides_on_scheme (parse : Str → Except String URL) (uri : Str)
    (timeout : Int) (u : URL) (h : parse uri = .ok u) :
    (u.Scheme = "tcp".data → NewExporter parse uri timeout
        = .ok ⟨uri, ⟨u.Host, "tcp".data, timeout⟩, F64.zero, [], [], [], []⟩) ∧
    (u.Scheme = "unix".data → NewExporter parse uri timeout
        = .ok ⟨uri, ⟨u.Path, "unix".data, timeout⟩, F64.zero, [], [], [], []⟩) ∧
    (u.Scheme ≠ "tcp".data → u.Scheme ≠ "unix".data →
      NewExporter parse uri timeout = .error (.unsupportedScheme u.Scheme)) := by
  refine ⟨?_, ?_, ?_⟩
  · intro hs
    simp [NewExporter, h, hs]
  · intro hs
    have hne : ¬ "unix".data = "tcp".data := by decide
    simp [NewExporter, h, hs, hne]
  · intro h1 h2
    simp [NewExporter, h, h1, h2]

/-- C8, at the URI "/dev/null" of the benchmark: its scheme is empty and `NewExporter`
returns the error. -/
theorem NewExporter_decides_on_scheme_witness :
    urlParse "/dev/null".data = .ok ⟨[], [], "/dev/null".data⟩ ∧
    NewExporter urlParse "/dev/null".data 1000000000 = .error (.unsupportedScheme []) :=
  ⟨by rfl,
    (NewExporter_decides_on_scheme urlParse "/dev/null".data 1000000000
      ⟨[], [], "/dev/null".data⟩ (by rfl)).2.2 (by decide) (by decide)⟩

/-- The default scrape URI gives the default exporter. -/
theorem NewExporter_default :
    NewExporter urlParse "tcp://127.0.0.1:4730".data 5000000000 = .ok defaultExporter := by
  rfl

/-! ### C10: the panic of `scrape` -/

/-- C10. On a body a successful fetch returned, `scrape` ends without the panic
`index out of range` exactly when every line that precedes the first line equal to "."
(every line, when there is none) has at least three tabs. When it panics, it does so at
the first line with fewer tabs: the exporter is then in the state the loop reaches by
processing the lines before that one, all four values of each of them published and none
of the offending line. And after a reset the four families hold the same labels, however
`scrape` ends. -/
theorem scrape_panics_iff_short_line (e : Exporter) (data : Str) :
    ((e.scrape (.ok data)).2 = Exporter.Outcome.returned ↔
      ∀ line ∈ recordLines data, 3 ≤ Count line '\t') ∧
    ((e.scrape (.ok data)).2 = Exporter.Outcome.panicked →
      ∃ pre bad post, Split data '\n' = pre ++ bad :: post ∧
        (∀ l ∈ pre, l ≠ ['.'] ∧ 3 ≤ Count l '\t') ∧ bad ≠ ['.'] ∧ Count bad '\t' < 3 ∧
        e.scrape (.ok data)
          = ((Exporter.scrapeLines { e with up := F64.ofNat 1 } pre).1,
              Exporter.Outcome.panicked) ∧
        (Exporter.scrapeLines { e with up := F64.ofNat 1 } pre).2
          = Exporter.Outcome.returned) ∧
    (∀ m ∈ (e.resetMetrics.scrape (.ok data)).1.functionMetrics,
      GaugeVec.labels m = (e.resetMetrics.scrape (.ok data)).1.functionJobs.labels) := by
  refine ⟨?_, ?_, scrape_reset_sameLabels e (.ok data)⟩
  · exact scrapeLines_returned_iff _ _
  · intro h
    exact scrapeLines_panicked _ _ h

set_option maxRecDepth 100000 in
set_option exponentiation.threshold 100000 in
/-- C10, at the body "a\t1\t1\t1\nb\t2\nc\t3\t3\t3\n.\n": the panic is at the line of
`b`, with the values of `a` published and nothing of `b` or `c`. -/
theorem scrape_panics_iff_short_line_witness :
    defaultExporter.scrape (.ok "a\t1\t1\t1\nb\t2\nc\t3\t3\t3\n.\n".data)
      = ({ defaultExporter with
            up := F64.ofNat 1
            functionJobs := [("a".data, F64.ofNat 1)]
            functionJobsRunning := [("a".data, F64.ofNat 1)]
            functionJobsWaiting := [("a".data, F64.ofNat 0)]
            functionWorkers := [("a".data, F64.ofNat 1)] },
          Exporter.Outcome.panicked) ∧
    ¬ (∀ line ∈ recordLines "a\t1\t1\t1\nb\t2\nc\t3\t3\t3\n.\n".data,
      3 ≤ Count line '\t') :=
  ⟨by decide,
    fun h => absurd
      ((scrape_panics_iff_short_line defaultExporter
        "a\t1\t1\t1\nb\t2\nc\t3\t3\t3\n.\n".data).1.mpr h) (by decide)⟩

end Gearman
